import Mathlib

/-!
Verification development for the per-frame visibility and draw-command
scheduling core of the Cesium SceneView renderer
(Source/Scene/SceneView.js).

The JavaScript numbers are modelled as exact rationals.  The functions
updateFrustums, insertIntoBin, createPotentiallyVisibleSet and
executeCommands are translated from the source; the external Core
collaborators that the source file only imports (BoundingSphere plane
distances, CullingVolume visibility classification, the Occluder, the
Pass enum and the FrustumCommands container) are modelled from the
specification, as marked on each definition.
-/

set_option allowUnsafeReducibility true

attribute [semireducible] Rat.add Rat.sub Rat.mul Rat.inv

set_option maxRecDepth 100000

/-- A world-space vector, standing in for Cartesian3. -/
structure Vec3 where
  x : ℚ
  y : ℚ
  z : ℚ
deriving DecidableEq

def Vec3.dot (a b : Vec3) : ℚ := a.x * b.x + a.y * b.y + a.z * b.z

def Vec3.sub (a b : Vec3) : Vec3 := ⟨a.x - b.x, a.y - b.y, a.z - b.z⟩

/-- A bounding sphere: center plus radius. -/
structure BoundingSphere where
  center : Vec3
  radius : ℚ
deriving DecidableEq

/-- A plane equation n . p + d = 0; the normal points toward the inside
of the culling volume. -/
structure Plane where
  normal : Vec3
  d : ℚ
deriving DecidableEq

def Plane.signedDistance (p : Plane) (v : Vec3) : ℚ := p.normal.dot v + p.d

/-- Visibility classification values (Core/Intersect). -/
inductive Intersect where
  | OUTSIDE
  | INTERSECTING
  | INSIDE
deriving DecidableEq

/-- Modelled from the spec: classification of a bounding sphere against a
single plane; fully outside when the whole sphere is on the negative side
(distance from center below minus radius, the normal pointing inward). -/
def intersectPlane (s : BoundingSphere) (p : Plane) : Intersect :=
  let dist := p.signedDistance s.center
  if dist < -s.radius then Intersect.OUTSIDE
  else if s.radius < dist then Intersect.INSIDE
  else Intersect.INTERSECTING

/-- Modelled from the spec: CullingVolume.computeVisibility classifies a
bounding sphere against the ordered set of planes as one of
inside, outside, intersecting; it is OUTSIDE exactly when some plane puts
the sphere fully outside. -/
def computeVisibility (planes : List Plane) (s : BoundingSphere) : Intersect :=
  if planes.any (fun p => intersectPlane s p = Intersect.OUTSIDE) then Intersect.OUTSIDE
  else if planes.any (fun p => intersectPlane s p = Intersect.INTERSECTING) then
    Intersect.INTERSECTING
  else Intersect.INSIDE

/-- A near/far distance interval along the camera view direction
(Core/Interval). -/
structure DistInterval where
  start : ℚ
  stop : ℚ
deriving DecidableEq

/-- Modelled from the spec: BoundingSphere.computePlaneDistances returns
the plane-distance interval of the sphere along the camera view
direction: the projection of the center onto the direction, minus and
plus the radius. -/
def computePlaneDistances (s : BoundingSphere) (position direction : Vec3) : DistInterval :=
  let proj := direction.dot (s.center.sub position)
  ⟨proj - s.radius, proj + s.radius⟩

/-- Modelled from the spec: the Pass enum is ordered with GLOBE first,
a general opaque pass, then TRANSLUCENT, with OVERLAY last; the numeric
values drive bucket indexing and execution order. -/
def Pass.GLOBE : ℕ := 0

def Pass.OPAQUE : ℕ := 1

def Pass.TRANSLUCENT : ℕ := 2

def Pass.OVERLAY : ℕ := 3

def Pass.NUMBER_OF_PASSES : ℕ := 4

/-- A draw command as the scheduling core sees it: the pass, the optional
bounding sphere, the culling and closest-frustum flags, and whether the
command is a ClearCommand (the source tests this with instanceof). -/
structure Command where
  pass : ℕ
  boundingVolume : Option BoundingSphere
  cull : Bool
  executeInClosestFrustum : Bool
  isClear : Bool
deriving DecidableEq

/-- Modelled from the spec: the FrustumCommands container holds one depth
slice: its near/far range, the per-pass command buffers, and the per-pass
counts (indices).  Buffers are reused; entries beyond the count are
stale. -/
structure FrustumCommands where
  near : ℚ
  far : ℚ
  indices : List ℕ
  commands : List (List Command)
deriving DecidableEq

/-- Modelled from the spec: a freshly constructed FrustumCommands has the
given range, zero counts and empty buffers. -/
def FrustumCommands.init (near far : ℚ) : FrustumCommands :=
  ⟨near, far, List.replicate Pass.NUMBER_OF_PASSES 0, List.replicate Pass.NUMBER_OF_PASSES []⟩

def fcDefault : FrustumCommands := FrustumCommands.init 0 0

/-- The near value of slice m (out-of-range reads give the default). -/
def sliceNear (l : List FrustumCommands) (m : ℕ) : ℚ := (l.getD m fcDefault).near

/-- The far value of slice m (out-of-range reads give the default). -/
def sliceFar (l : List FrustumCommands) (m : ℕ) : ℚ := (l.getD m fcDefault).far

/-- updateFrustums (SceneView.js): resizes the slice list to numFrustums
and writes slice m with curNear = max(near, r^m * near) and
curFar = min(far, r * curNear), reusing an existing entry at m when one
is present and constructing a fresh one otherwise. -/
def updateFrustums (near far r : ℚ) (numFrustums : ℕ)
    (frustumCommandsList : List FrustumCommands) : List FrustumCommands :=
  (List.range numFrustums).map (fun m =>
    let curNear := max near (r ^ m * near)
    let curFar := min far (r * curNear)
    match frustumCommandsList[m]? with
    | some fc => { fc with near := curNear, far := curFar }
    | none => FrustumCommands.init curNear curFar)

/-- JavaScript array write commands[pass][index] = command where index is
at most the current length: overwrite in range, append at the end. -/
def setOrGrow (b : List Command) (i : ℕ) (c : Command) : List Command :=
  if i < b.length then b.set i c else b ++ [c]

/-- The pass a command is bucketed under: clear commands always go to the
opaque pass. -/
def binPassOf (c : Command) : ℕ := if c.isClear then Pass.OPAQUE else c.pass

/-- The body of the insertion: indices[pass]++ and
commands[pass][index] = command on one slice. -/
def bucketInsert (fc : FrustumCommands) (c : Command) : FrustumCommands :=
  let pass := binPassOf c
  let index := fc.indices.getD pass 0
  { fc with
    indices := fc.indices.set pass (index + 1)
    commands := fc.commands.set pass (setOrGrow (fc.commands.getD pass []) index c) }

/-- The scan of insertIntoBin over the slice list: skip a slice when
start is beyond its far (continue), stop for good when stop is before its
near (break), otherwise insert, record bit i in the overlap mask when
diagnostics are on, and stop after the first insertion when
executeInClosestFrustum is set.  Returns the updated slices and the
overlap mask. -/
def insertIntoBinAux (dbg : Bool) (c : Command) (distance : DistInterval) :
    List FrustumCommands → ℕ → ℕ → List FrustumCommands × ℕ
  | [], _, mask => ([], mask)
  | fc :: rest, i, mask =>
    if distance.start > fc.far then
      let r := insertIntoBinAux dbg c distance rest (i + 1) mask
      (fc :: r.1, r.2)
    else if distance.stop < fc.near then
      (fc :: rest, mask)
    else
      let fc' := bucketInsert fc c
      let mask' := if dbg then mask ||| 2 ^ i else mask
      if c.executeInClosestFrustum then
        (fc' :: rest, mask')
      else
        let r := insertIntoBinAux dbg c distance rest (i + 1) mask'
        (fc' :: r.1, r.2)

/-- The frustum-overlap statistics record kept under debugShowFrustums:
total commands, and a map from overlap mask to how many commands carried
that mask. -/
structure FrustumStatistics where
  totalCommands : ℕ
  commandsInFrustums : ℕ → ℕ

/-- The statistics update at the end of insertIntoBin. -/
def recordStats (st : FrustumStatistics) (mask : ℕ) : FrustumStatistics :=
  ⟨st.totalCommands + 1,
   fun m => if m = mask then st.commandsInFrustums m + 1 else st.commandsInFrustums m⟩

/-- insertIntoBin (SceneView.js): reset the overlap mask, scan the slice
list, and record statistics when diagnostics are on.  Returns the updated
slices, the updated statistics and the overlap mask that the source
stores on command.debugOverlappingFrustums. -/
def insertIntoBin (dbg : Bool) (l : List FrustumCommands) (stats : FrustumStatistics)
    (c : Command) (distance : DistInterval) :
    List FrustumCommands × FrustumStatistics × ℕ :=
  let r := insertIntoBinAux dbg c distance l 0 0
  (r.1, if dbg then recordStats stats r.2 else stats, r.2)

/-- A distance interval overlaps a slice when start is not beyond the
slice far and stop is not before the slice near: exactly the condition
under which the insertIntoBin scan inserts. -/
def overlapB (d : DistInterval) (fc : FrustumCommands) : Bool :=
  decide (d.start ≤ fc.far) && decide (fc.near ≤ d.stop)

/-- Slices listed in increasing-near order. -/
def nearsSorted (l : List FrustumCommands) : Prop :=
  l.Pairwise (fun a b => a.near ≤ b.near)

instance (l : List FrustumCommands) : Decidable (nearsSorted l) := by
  unfold nearsSorted
  exact List.instDecidablePairwise l

/-- The per-frame inputs of the culling and binning pass that do not
change while the pass runs: diagnostics flag, camera near/far, camera
position and view direction, the culling volume already reduced to its
first five planes, and the occluder (already gated on the 3D mode). -/
structure BinParams where
  debugShowFrustums : Bool
  cameraNear : ℚ
  cameraFar : ℚ
  cameraPosition : Vec3
  cameraDirection : Vec3
  planes5 : List Plane
  occluder : Option (BoundingSphere → Bool)

/-- The culling test of createPotentiallyVisibleSet: a command with a
bounding volume and cull set is rejected when the reduced culling volume
classifies it OUTSIDE, or an occluder is present and reports it not
visible. -/
def isCulledAway (p : BinParams) (c : Command) (bv : BoundingSphere) : Bool :=
  c.cull &&
    (decide (computeVisibility p.planes5 bv = Intersect.OUTSIDE) ||
     (match p.occluder with
      | some occ => !occ bv
      | none => false))

/-- The mutable state threaded through the command loop of
createPotentiallyVisibleSet: the slice list, the accumulated near/far
extent, the undefined-bounding-volume flag and the statistics. -/
structure BinState where
  frustums : List FrustumCommands
  near : ℚ
  far : ℚ
  undefBV : Bool
  stats : FrustumStatistics

/-- One iteration of the command loop of createPotentiallyVisibleSet:
OVERLAY commands are skipped; a culled-away command is dropped with no
side effects; a surviving bounded command accumulates its plane-distance
interval into near/far and is inserted; an unbounded command is given the
camera worst-case interval, overwrites the undefBV flag with whether it
is not a clear command, and is inserted. -/
def processCommand (p : BinParams) (st : BinState) (c : Command) : BinState :=
  if c.pass = Pass.OVERLAY then st
  else
    match c.boundingVolume with
    | some bv =>
      if isCulledAway p c bv then st
      else
        let d := computePlaneDistances bv p.cameraPosition p.cameraDirection
        let r := insertIntoBin p.debugShowFrustums st.frustums st.stats c d
        { frustums := r.1
          near := min st.near d.start
          far := max st.far d.stop
          undefBV := st.undefBV
          stats := r.2.1 }
    | none =>
      let d : DistInterval := ⟨p.cameraNear, p.cameraFar⟩
      let r := insertIntoBin p.debugShowFrustums st.frustums st.stats c d
      { frustums := r.1
        near := st.near
        far := st.far
        undefBV := !c.isClear
        stats := r.2.1 }

/-- The extent-and-flag component of processCommand in isolation: how one
command updates (near, far, undefBV).  Used to show that the discovered
extent does not depend on the slice partition. -/
def extentStep (p : BinParams) (e : ℚ × ℚ × Bool) (c : Command) : ℚ × ℚ × Bool :=
  if c.pass = Pass.OVERLAY then e
  else
    match c.boundingVolume with
    | some bv =>
      if isCulledAway p c bv then e
      else
        let d := computePlaneDistances bv p.cameraPosition p.cameraDirection
        (min e.1 d.start, max e.2.1 d.stop, e.2.2)
    | none => (e.1, e.2.1, !c.isClear)

/-- The count reset at the top of createPotentiallyVisibleSet: every
slice gets indices[p] = 0 for every pass. -/
def resetIndices (l : List FrustumCommands) : List FrustumCommands :=
  l.map (fun fc => { fc with indices := List.replicate Pass.NUMBER_OF_PASSES 0 })

/-- The slice of SceneView state that createPotentiallyVisibleSet reads
and writes: the command buffer, the slice list, the far-to-near ratio
(source name farToNearRatio), the diagnostics flag, the camera, the
frame culling volume, the occluder, the mode and the statistics. -/
structure SceneState where
  commandList : List Command
  frustumCommandsList : List FrustumCommands
  farToNear : ℚ
  debugShowFrustums : Bool
  cameraNear : ℚ
  cameraFar : ℚ
  cameraPosition : Vec3
  cameraDirection : Vec3
  cullingVolume : List Plane
  occluder : Option (BoundingSphere → Bool)
  mode3D : Bool
  stats : FrustumStatistics

/-- The binning parameters drawn from the scene: the user culling volume
minus the far plane (only the first five planes are copied), and the
occluder only in 3D mode. -/
def binParamsOf (s : SceneState) : BinParams :=
  { debugShowFrustums := s.debugShowFrustums
    cameraNear := s.cameraNear
    cameraFar := s.cameraFar
    cameraPosition := s.cameraPosition
    cameraDirection := s.cameraDirection
    planes5 := s.cullingVolume.take 5
    occluder := if s.mode3D then s.occluder else none }

/-- Under debugShowFrustums the statistics are re-initialized at the top
of every pass; otherwise the old record is left alone. -/
def initialStats (s : SceneState) : FrustumStatistics :=
  if s.debugShowFrustums then ⟨0, fun _ => 0⟩ else s.stats

/-- JavaScript Number.MAX_VALUE, the sentinel the discovered near starts
from, as an exact rational (the integer (2 - 2 to the -52) * 2 to the
1023, written out in full so that evaluation never builds a deep tower
of multiplications). -/
def maxValue : ℚ := 179769313486231570814527423731704356798070567525844996598917476803157260780028538760589558632766878171540458953514382464234321326889464182768467546703537516986049910576551282076245490090389328944075868508455133942304583236903222948165808559332123348274797826204144723168738177180919299881250404026184124858368

/-- JavaScript Number.MIN_VALUE, the value the discovered far starts
from, as an exact rational (2 to the -1074 written out in full). -/
def minValue : ℚ :=
  1 / 202402253307310618352495346718917307049556649764142118356901358027430339567995346891960383701437124495187077864316811911389808737385793476867013399940738509921517424276566361364466907742093216341239767678472745068562007483424692698618103355649159556340810056512358769552333414615230502532186327508646006263307707741093494784

/-- One full culling-and-binning pass of createPotentiallyVisibleSet:
reset the counts, then fold the command loop over the command buffer
starting from the sentinel extent. -/
def cpvsPass (s : SceneState) : BinState :=
  s.commandList.foldl (processCommand (binParamsOf s))
    ⟨resetIndices s.frustumCommandsList, maxValue, minValue, false, initialStats s⟩

/-- The near/far clamp after the pass: with an undefined (non-clear)
bounding volume observed, fall back to the camera range; otherwise clamp
the discovered near into [cameraNear, cameraFar] and the discovered far
into [near, cameraFar]. -/
def clampNearFar (cameraNear cameraFar rawNear rawFar : ℚ) (undefBV : Bool) : ℚ × ℚ :=
  if undefBV then (cameraNear, cameraFar)
  else
    let n := min (max rawNear cameraNear) cameraFar
    (n, max (min rawFar cameraFar) n)

/-- The bounded search behind the slice count: the least n with
x ≤ r^n, found by repeatedly dividing by r.  With the fuel below this
computes ceil(log(x) / log(r)) for x ≥ 1, the expression
Math.ceil(Math.log(far / near) / Math.log(farToNearRatio)) of the
source. -/
def leastPowAux (r : ℚ) : ℕ → ℚ → ℕ
  | 0, _ => 0
  | fuel + 1, x => if x ≤ 1 then 0 else leastPowAux r fuel (x / r) + 1

/-- The least n with x ≤ r^n (for r > 1); the fuel (x-1)/(r-1) + 1
suffices by the Bernoulli inequality. -/
def leastPow (r x : ℚ) : ℕ := leastPowAux r ((⌈(x - 1) / (r - 1)⌉).toNat + 1) x

/-- The clamped near/far that createPotentiallyVisibleSet derives from
one pass over the scene. -/
def clampedNF (s : SceneState) : ℚ × ℚ :=
  clampNearFar s.cameraNear s.cameraFar (cpvsPass s).near (cpvsPass s).far (cpvsPass s).undefBV

/-- The slice count recomputed after the pass, numFrustums in the
source. -/
def newNumFrustums (s : SceneState) : ℕ :=
  leastPow s.farToNear ((clampedNF s).2 / (clampedNF s).1)

/-- The scene after one pass with no repartition: the binned slices and
the updated statistics are stored back. -/
def passState (s : SceneState) : SceneState :=
  { s with frustumCommandsList := (cpvsPass s).frustums, stats := (cpvsPass s).stats }

/-- The temporal-coherence guard of createPotentiallyVisibleSet: rebuild
the slice partition when the clamped near is not the MAX_VALUE sentinel
and either the recomputed slice count differs from the current one, or
the list is nonempty and the discovered range escapes the first slice
near or the last slice far. -/
def repartitionNeeded (s : SceneState) : Prop :=
  (clampedNF s).1 ≠ maxValue ∧
    (newNumFrustums s ≠ s.frustumCommandsList.length ∨
      ((cpvsPass s).frustums.length ≠ 0 ∧
        ((clampedNF s).1 < sliceNear (cpvsPass s).frustums 0 ∨
         (clampedNF s).2 > sliceFar (cpvsPass s).frustums (s.frustumCommandsList.length - 1))))

instance (s : SceneState) : Decidable (repartitionNeeded s) := by
  unfold repartitionNeeded
  infer_instance

/-- The scene handed to the recursive call: updateFrustums is run on the
just-binned slice list with the clamped range and the recomputed count. -/
def repartitionedState (s : SceneState) : SceneState :=
  { s with
    frustumCommandsList :=
      updateFrustums (clampedNF s).1 (clampedNF s).2 s.farToNear (newNumFrustums s)
        (cpvsPass s).frustums
    stats := (cpvsPass s).stats }

/-- createPotentiallyVisibleSet (SceneView.js): one binning pass, then
either stop or repartition and recurse.  The self-recursion of the
source is modelled with explicit fuel; the termination theorem shows
that fuel 2 already reaches the fixed point. -/
def createPotentiallyVisibleSet : ℕ → SceneState → SceneState
  | 0, s => s
  | fuel + 1, s =>
    if repartitionNeeded s then createPotentiallyVisibleSet fuel (repartitionedState s)
    else passState s

/-- The commands one slice executes, in order: the GLOBE bucket up to its
count, then every pass after GLOBE and before TRANSLUCENT up to its
count. -/
def executeSlice (fc : FrustumCommands) : List Command :=
  (fc.commands.getD Pass.GLOBE []).take (fc.indices.getD Pass.GLOBE 0) ++
    (List.range' (Pass.GLOBE + 1) (Pass.TRANSLUCENT - (Pass.GLOBE + 1))).flatMap
      (fun pass => (fc.commands.getD pass []).take (fc.indices.getD pass 0))

/-- executeCommands (SceneView.js), reduced to the order in which draw
commands are executed: the loop visits index numFrustums - i - 1 as i
counts up, so slices run from the farthest to the nearest, and each
slice contributes the commands of executeSlice tagged with its index. -/
def executeCommandsOrder (l : List FrustumCommands) : List (ℕ × Command) :=
  (List.range l.length).flatMap (fun i =>
    let index := l.length - i - 1
    (executeSlice (l.getD index fcDefault)).map (fun c => (index, c)))

/-- The slice blocks in near-to-far order, used to state that the
executor visits them reversed. -/
def sliceBlocks (l : List FrustumCommands) : List (List (ℕ × Command)) :=
  (List.range l.length).map (fun i =>
    (executeSlice (l.getD i fcDefault)).map (fun c => (i, c)))

/-- The per-near/far content of a slice list, used to state that binning
rewrites buckets but never the slice ranges. -/
def nfList (l : List FrustumCommands) : List (ℚ × ℚ) := l.map (fun fc => (fc.near, fc.far))

/-- The value the undefBV flag of the source holds after the command
loop: the flag is overwritten by every command without a bounding volume,
so it records whether the last such (non-OVERLAY) command was not a
clear. -/
def lastUnboundedNonClear (cs : List Command) : Bool :=
  cs.foldl (fun b c =>
    if c.pass = Pass.OVERLAY then b
    else
      match c.boundingVolume with
      | some _ => b
      | none => !c.isClear) false

/-- An empty statistics record for the concrete scenes below. -/
def noStats : FrustumStatistics := ⟨0, fun _ => 0⟩

/-- The end-to-end example camera of the spec: near 1, far 1000000,
far-to-near 1000, two slices [1,1000] and [1000,1000000], with an empty
command buffer. -/
def sceneC4 : SceneState :=
  { commandList := []
    frustumCommandsList := [FrustumCommands.init 1 1000, FrustumCommands.init 1000 1000000]
    farToNear := 1000
    debugShowFrustums := false
    cameraNear := 1
    cameraFar := 1000000
    cameraPosition := ⟨0, 0, 0⟩
    cameraDirection := ⟨1, 0, 0⟩
    cullingVolume := []
    occluder := none
    mode3D := false
    stats := noStats }

/-- An opaque command whose bounding sphere projects onto the distance
interval [2, 500000], strictly inside the camera range of sceneC4. -/
def cmdC5 : Command :=
  { pass := Pass.OPAQUE
    boundingVolume := some ⟨⟨250001, 0, 0⟩, 249999⟩
    cull := false
    executeInClosestFrustum := false
    isClear := false }

/-- sceneC4 with the single command cmdC5 in the buffer. -/
def sceneC5 : SceneState := { sceneC4 with commandList := [cmdC5] }

/-- An opaque command with distance interval [10, 50]. -/
def cmdC7a : Command :=
  { pass := Pass.OPAQUE
    boundingVolume := some ⟨⟨30, 0, 0⟩, 20⟩
    cull := false
    executeInClosestFrustum := false
    isClear := false }

/-- A non-clear command without a bounding volume. -/
def cmdC7b : Command :=
  { pass := Pass.OPAQUE
    boundingVolume := none
    cull := false
    executeInClosestFrustum := false
    isClear := false }

/-- A clear command (no bounding volume). -/
def cmdC7c : Command :=
  { pass := Pass.OPAQUE
    boundingVolume := none
    cull := false
    executeInClosestFrustum := false
    isClear := true }

/-- sceneC4 with a bounded command, then a non-clear unbounded command,
then a clear unbounded command. -/
def sceneC7 : SceneState := { sceneC4 with commandList := [cmdC7a, cmdC7b, cmdC7c] }

/-- The two-slice partition [1,1000], [1000,1000000] of the spec
scenarios. -/
def slices2 : List FrustumCommands :=
  [FrustumCommands.init 1 1000, FrustumCommands.init 1000 1000000]

/-- An opaque command used for the overlap-mask scenario; its distance
interval [500, 1500] spans both slices of slices2. -/
def cmdSpan : Command :=
  { pass := Pass.OPAQUE
    boundingVolume := some ⟨⟨1000, 0, 0⟩, 500⟩
    cull := false
    executeInClosestFrustum := false
    isClear := false }

/-- cmdSpan with the closest-frustum flag set. -/
def cmdSpanClosest : Command := { cmdSpan with executeInClosestFrustum := true }

/-- A plane that classifies bvFar as fully outside: inward normal along
negative x, boundary at x = 1000 (a far plane). -/
def planeExcl : Plane := ⟨⟨-1, 0, 0⟩, 1000⟩

/-- A plane that contains bvFar comfortably: inward normal along
positive x, boundary at x = 1 (a near plane). -/
def planeIn : Plane := ⟨⟨1, 0, 0⟩, -1⟩

/-- A bounding sphere at distance 2000 along the view direction with
radius 10: beyond the x = 1000 plane, inside the x = 1 half-space. -/
def bvFar : BoundingSphere := ⟨⟨2000, 0, 0⟩, 10⟩

/-- A cullable command with bounding sphere bvFar. -/
def cmdCull : Command :=
  { pass := Pass.OPAQUE
    boundingVolume := some bvFar
    cull := true
    executeInClosestFrustum := false
    isClear := false }

/-- Binning parameters whose reduced culling volume consists of the one
plane that excludes bvFar. -/
def pC3 : BinParams :=
  { debugShowFrustums := false
    cameraNear := 1
    cameraFar := 1000000
    cameraPosition := ⟨0, 0, 0⟩
    cameraDirection := ⟨1, 0, 0⟩
    planes5 := [planeExcl]
    occluder := none }

/-- A binning state over the two-slice partition with the sentinel
extent. -/
def stC3 : BinState := ⟨slices2, maxValue, minValue, false, noStats⟩

/-- A scene whose culling volume has five satisfied planes followed by a
far plane that excludes bvFar, together with the culled command. -/
def sceneC10 : SceneState :=
  { sceneC4 with
    commandList := [cmdCull]
    cullingVolume := [planeIn, planeIn, planeIn, planeIn, planeIn, planeExcl] }

/-- A slice whose GLOBE bucket holds one live entry and one stale entry
beyond the recorded count. -/
def fcExec : FrustumCommands := ⟨1, 1000, [1, 0, 0, 0], [[cmdSpan, cmdC7a], [], [], []]⟩

/-- A two-slice list for the executor order witness. -/
def execList : List FrustumCommands := [fcExec, FrustumCommands.init 1000 1000000]

theorem leastPowAux_le {r : ℚ} (hr : 1 < r) :
    ∀ (fuel : ℕ) (x : ℚ), x ≤ r ^ fuel → x ≤ r ^ leastPowAux r fuel x := by
  intro fuel
  induction fuel with
  | zero => intro x hx; simpa [leastPowAux] using hx
  | succ fuel ih =>
    intro x hx
    by_cases h1 : x ≤ 1
    · simpa [leastPowAux, h1] using h1
    · have hr0 : (0 : ℚ) < r := lt_trans one_pos hr
      have hx' : x / r ≤ r ^ fuel := by
        rw [div_le_iff hr0]
        calc x ≤ r ^ (fuel + 1) := hx
        _ = r ^ fuel * r := pow_succ r fuel
      have := ih (x / r) hx'
      rw [div_le_iff hr0] at this
      simpa [leastPowAux, h1, pow_succ] using this

theorem leastPowAux_min {r : ℚ} (hr : 1 < r) :
    ∀ (fuel : ℕ) (x : ℚ) (m : ℕ), x ≤ r ^ m → leastPowAux r fuel x ≤ m := by
  intro fuel
  induction fuel with
  | zero => intro x m _; simp [leastPowAux]
  | succ fuel ih =>
    intro x m hm
    by_cases h1 : x ≤ 1
    · simp [leastPowAux, h1]
    · have hr0 : (0 : ℚ) < r := lt_trans one_pos hr
      match m with
      | 0 => exact absurd (by simpa using hm) h1
      | m + 1 =>
        have hx' : x / r ≤ r ^ m := by
          rw [div_le_iff hr0]
          calc x ≤ r ^ (m + 1) := hm
          _ = r ^ m * r := pow_succ r m
        have := ih (x / r) m hx'
        simpa [leastPowAux, h1] using Nat.succ_le_succ this

theorem leastPow_fuel_big {r x : ℚ} (hr : 1 < r) :
    x ≤ r ^ ((⌈(x - 1) / (r - 1)⌉).toNat + 1) := by
  set n : ℕ := (⌈(x - 1) / (r - 1)⌉).toNat + 1 with hn
  have hr1 : (0 : ℚ) < r - 1 := by linarith
  have hone : (1 : ℚ) ≤ r ^ n := one_le_pow₀ hr.le
  by_cases h1 : x ≤ 1
  · linarith
  · have hq : (x - 1) / (r - 1) ≤ (n : ℚ) := by
      calc (x - 1) / (r - 1) ≤ (⌈(x - 1) / (r - 1)⌉ : ℚ) := Int.le_ceil _
      _ ≤ (((⌈(x - 1) / (r - 1)⌉).toNat : ℤ) : ℚ) := by
          exact_mod_cast Int.self_le_toNat _
      _ ≤ (n : ℚ) := by
          rw [hn]
          push_cast
          linarith
    have hx1 : x - 1 ≤ (n : ℚ) * (r - 1) := by
      rw [div_le_iff hr1] at hq
      linarith
    have hb : 1 + (n : ℚ) * (r - 1) ≤ (1 + (r - 1)) ^ n := by
      apply one_add_mul_le_pow
      linarith
    have hrr : (1 : ℚ) + (r - 1) = r := by ring
    rw [hrr] at hb
    linarith

theorem leastPow_le {r x : ℚ} (hr : 1 < r) : x ≤ r ^ leastPow r x :=
  leastPowAux_le hr _ x (leastPow_fuel_big hr)

theorem leastPow_min {r x : ℚ} (hr : 1 < r) {m : ℕ} (h : x ≤ r ^ m) : leastPow r x ≤ m :=
  leastPowAux_min hr _ x m h

theorem updateFrustums_length (near far r : ℚ) (k : ℕ) (l : List FrustumCommands) :
    (updateFrustums near far r k l).length = k := by
  simp [updateFrustums]

theorem updateFrustums_getD (near far r : ℚ) (k : ℕ) (l : List FrustumCommands) {m : ℕ}
    (hm : m < k) :
    (updateFrustums near far r k l).getD m fcDefault =
      (match l[m]? with
       | some fc =>
         { fc with
           near := max near (r ^ m * near)
           far := min far (r * max near (r ^ m * near)) }
       | none =>
         FrustumCommands.init (max near (r ^ m * near))
           (min far (r * max near (r ^ m * near)))) := by
  have h1 : (List.range k)[m]? = some m := List.getElem?_range hm
  simp [updateFrustums, List.getD_eq_getElem?_getD, List.getElem?_map, h1]

theorem sliceNear_updateFrustums (near far r : ℚ) (k : ℕ) (l : List FrustumCommands) {m : ℕ}
    (hm : m < k) :
    sliceNear (updateFrustums near far r k l) m = max near (r ^ m * near) := by
  rw [sliceNear, updateFrustums_getD near far r k l hm]
  cases l[m]? <;> rfl

theorem sliceFar_updateFrustums (near far r : ℚ) (k : ℕ) (l : List FrustumCommands) {m : ℕ}
    (hm : m < k) :
    sliceFar (updateFrustums near far r k l) m = min far (r * max near (r ^ m * near)) := by
  rw [sliceFar, updateFrustums_getD near far r k l hm]
  cases l[m]? <;> rfl

theorem curNear_eq_pow {near r : ℚ} (hn : 0 < near) (hr : 1 ≤ r) (m : ℕ) :
    max near (r ^ m * near) = r ^ m * near := by
  have : (1 : ℚ) ≤ r ^ m := one_le_pow₀ hr
  exact max_eq_right (le_mul_of_one_le_left hn.le this)

/-- C1: with numSlices computed as the ceiling of log(far/near) over
log(r) (the least n with far/near below r to the n), updateFrustums
produces numSlices slices where slice m has near max(near, r^m * near)
and far min(far, r * curNear); the slice nears are non-decreasing, every
slice has near at most far, the first slice near is near, the last slice
far is far, and adjacent slices leave no gap. -/
theorem updateFrustums_log_partition (near far r : ℚ) (numSlices : ℕ)
    (l : List FrustumCommands)
    (hn : 0 < near) (hnf : near < far) (hr : 1 < r)
    (hk : numSlices = leastPow r (far / near)) :
    (updateFrustums near far r numSlices l).length = numSlices ∧
    (∀ m, m < numSlices →
      sliceNear (updateFrustums near far r numSlices l) m = max near (r ^ m * near) ∧
      sliceFar (updateFrustums near far r numSlices l) m =
        min far (r * max near (r ^ m * near))) ∧
    (∀ m, m + 1 < numSlices →
      sliceNear (updateFrustums near far r numSlices l) m ≤
        sliceNear (updateFrustums near far r numSlices l) (m + 1)) ∧
    (∀ m, m < numSlices →
      sliceNear (updateFrustums near far r numSlices l) m ≤
        sliceFar (updateFrustums near far r numSlices l) m) ∧
    sliceNear (updateFrustums near far r numSlices l) 0 = near ∧
    sliceFar (updateFrustums near far r numSlices l) (numSlices - 1) = far ∧
    (∀ m, m + 1 < numSlices →
      sliceNear (updateFrustums near far r numSlices l) (m + 1) ≤
        sliceFar (updateFrustums near far r numSlices l) m) := by
  have hub : far ≤ r ^ numSlices * near := by
    have h1 : far / near ≤ r ^ numSlices := by
      rw [hk]; exact leastPow_le hr
    rwa [div_le_iff hn] at h1
  have hk1 : 1 ≤ numSlices := by
    rcases Nat.eq_zero_or_pos numSlices with h | h
    · exfalso
      rw [h] at hub
      simp at hub
      linarith
    · exact h
  have hlb : r ^ (numSlices - 1) * near < far := by
    by_contra hcon
    push_neg at hcon
    have h1 : far / near ≤ r ^ (numSlices - 1) := by
      rw [div_le_iff hn]; linarith
    have h2 := leastPow_min hr h1
    rw [← hk] at h2
    omega
  have hmono : ∀ m, m ≤ numSlices - 1 → r ^ m * near ≤ r ^ (numSlices - 1) * near := by
    intro m hm
    have : r ^ m ≤ r ^ (numSlices - 1) := pow_le_pow_right hr.le hm
    exact mul_le_mul_of_nonneg_right this hn.le
  refine ⟨updateFrustums_length near far r numSlices l, ?_, ?_, ?_, ?_, ?_, ?_⟩
  · intro m hm
    exact ⟨sliceNear_updateFrustums near far r numSlices l hm,
      sliceFar_updateFrustums near far r numSlices l hm⟩
  · intro m hm
    rw [sliceNear_updateFrustums near far r numSlices l (by omega),
      sliceNear_updateFrustums near far r numSlices l hm,
      curNear_eq_pow hn hr.le, curNear_eq_pow hn hr.le]
    have : r ^ m ≤ r ^ (m + 1) := pow_le_pow_right hr.le (by omega)
    exact mul_le_mul_of_nonneg_right this hn.le
  · intro m hm
    rw [sliceNear_updateFrustums near far r numSlices l hm,
      sliceFar_updateFrustums near far r numSlices l hm, curNear_eq_pow hn hr.le]
    have hpos : 0 < r ^ m * near := by positivity
    apply le_min
    · calc r ^ m * near ≤ r ^ (numSlices - 1) * near := hmono m (by omega)
      _ ≤ far := hlb.le
    · nlinarith
  · rw [sliceNear_updateFrustums near far r numSlices l (by omega)]
    simp
  · rw [sliceFar_updateFrustums near far r numSlices l (by omega),
      curNear_eq_pow hn hr.le]
    have h1 : r * (r ^ (numSlices - 1) * near) = r ^ numSlices * near := by
      rw [← mul_assoc, ← pow_succ']
      congr 2
      omega
    rw [h1]
    exact min_eq_left hub
  · intro m hm
    rw [sliceNear_updateFrustums near far r numSlices l (by omega),
      sliceFar_updateFrustums near far r numSlices l (by omega),
      curNear_eq_pow hn hr.le, curNear_eq_pow hn hr.le]
    have h1 : r * (r ^ m * near) = r ^ (m + 1) * near := by
      rw [← mul_assoc, ← pow_succ']
    rw [h1]
    apply le_min
    · calc r ^ (m + 1) * near ≤ r ^ (numSlices - 1) * near := hmono (m + 1) (by omega)
      _ ≤ far := hlb.le
    · exact le_refl _

/-- Witness for C1 at near 1, far 1000000, r 1000, two slices. -/
theorem updateFrustums_log_partition_witness :
    (0 : ℚ) < 1 ∧ (1 : ℚ) < 1000000 ∧ (1 : ℚ) < 1000 ∧
      2 = leastPow 1000 ((1000000 : ℚ) / 1) ∧
      ((updateFrustums 1 1000000 1000 2 []).length = 2 ∧
        sliceNear (updateFrustums 1 1000000 1000 2 []) 0 = 1 ∧
        sliceFar (updateFrustums 1 1000000 1000 2 []) 1 = 1000000) :=
  ⟨by norm_num, by norm_num, by norm_num, by decide,
    (updateFrustums_log_partition 1 1000000 1000 2 [] (by norm_num) (by norm_num) (by norm_num)
        (by decide)).1,
    (updateFrustums_log_partition 1 1000000 1000 2 [] (by norm_num) (by norm_num) (by norm_num)
        (by decide)).2.2.2.2.1,
    (updateFrustums_log_partition 1 1000000 1000 2 [] (by norm_num) (by norm_num) (by norm_num)
        (by decide)).2.2.2.2.2.1⟩

theorem overlapB_iff (d : DistInterval) (fc : FrustumCommands) :
    overlapB d fc = true ↔ d.start ≤ fc.far ∧ fc.near ≤ d.stop := by
  simp [overlapB]

theorem insertIntoBinAux_fst_map (dbg : Bool) (c : Command) (d : DistInterval)
    (hc : c.executeInClosestFrustum = false) :
    ∀ (l : List FrustumCommands) (i mask : ℕ),
      l.Pairwise (fun a b => a.near ≤ b.near) →
      (insertIntoBinAux dbg c d l i mask).1 =
        l.map (fun fc => if overlapB d fc then bucketInsert fc c else fc) := by
  intro l
  induction l with
  | nil => intro i mask _; simp [insertIntoBinAux]
  | cons fc rest ih =>
    intro i mask hp
    rw [List.pairwise_cons] at hp
    by_cases h1 : d.start > fc.far
    · have hov : overlapB d fc = false := by
        simp only [overlapB, Bool.and_eq_false_iff, decide_eq_false_iff_not, not_le]
        exact Or.inl h1
      simp only [insertIntoBinAux, if_pos h1, List.map_cons, hov, Bool.false_eq_true,
        if_false]
      exact congrArg _ (ih (i + 1) mask hp.2)
    · by_cases h2 : d.stop < fc.near
      · have hov : overlapB d fc = false := by
          simp only [overlapB, Bool.and_eq_false_iff, decide_eq_false_iff_not, not_le]
          exact Or.inr h2
        have hrest : rest.map (fun fc => if overlapB d fc then bucketInsert fc c else fc) =
            rest := by
          have : ∀ a ∈ rest, (if overlapB d a then bucketInsert a c else a) = a := by
            intro a ha
            have hna : fc.near ≤ a.near := hp.1 a ha
            have : overlapB d a = false := by
              simp only [overlapB, Bool.and_eq_false_iff, decide_eq_false_iff_not, not_le]
              exact Or.inr (by linarith)
            simp [this]
          rw [List.map_congr_left this, List.map_id']
        simp only [insertIntoBinAux, if_neg h1, if_pos h2, List.map_cons, hov,
          Bool.false_eq_true, if_false, hrest]
      · have hov : overlapB d fc = true := by
          rw [overlapB_iff]
          constructor <;> linarith [not_lt.mp h1, not_lt.mp h2]
        simp only [insertIntoBinAux, if_neg h1, if_neg h2, hc, Bool.false_eq_true, if_false,
          List.map_cons, hov, if_true]
        exact congrArg _ (ih (i + 1) (if dbg then mask ||| 2 ^ i else mask) hp.2)

theorem insertIntoBin_fst_map (dbg : Bool) (l : List FrustumCommands)
    (stats : FrustumStatistics) (c : Command) (d : DistInterval)
    (hs : nearsSorted l) (hc : c.executeInClosestFrustum = false) :
    (insertIntoBin dbg l stats c d).1 =
      l.map (fun fc => if overlapB d fc then bucketInsert fc c else fc) :=
  insertIntoBinAux_fst_map dbg c d hc l 0 0 hs

theorem insertIntoBinAux_fst_closest (dbg : Bool) (c : Command) (d : DistInterval)
    (hc : c.executeInClosestFrustum = true) :
    ∀ (l : List FrustumCommands) (i mask : ℕ),
      l.Pairwise (fun a b => a.near ≤ b.near) →
      (∃ fc ∈ l, overlapB d fc = true) →
      (insertIntoBinAux dbg c d l i mask).1 =
        l.set (l.findIdx (overlapB d))
          (bucketInsert (l.getD (l.findIdx (overlapB d)) fcDefault) c) := by
  intro l
  induction l with
  | nil => intro i mask _ hex; simp at hex
  | cons fc rest ih =>
    intro i mask hp hex
    rw [List.pairwise_cons] at hp
    by_cases h1 : d.start > fc.far
    · have hov : overlapB d fc = false := by
        simp only [overlapB, Bool.and_eq_false_iff, decide_eq_false_iff_not, not_le]
        exact Or.inl h1
      have hex' : ∃ x ∈ rest, overlapB d x = true := by
        rcases hex with ⟨x, hx, hox⟩
        rcases List.mem_cons.mp hx with rfl | hx'
        · rw [hov] at hox; cases hox
        · exact ⟨x, hx', hox⟩
      simp only [insertIntoBinAux, if_pos h1, List.findIdx_cons, hov, cond_false,
        List.set_cons_succ, List.getD_cons_succ]
      exact congrArg _ (ih (i + 1) mask hp.2 hex')
    · by_cases h2 : d.stop < fc.near
      · exfalso
        rcases hex with ⟨x, hx, hox⟩
        rcases List.mem_cons.mp hx with rfl | hx'
        · rw [overlapB_iff] at hox
          linarith [hox.2]
        · rw [overlapB_iff] at hox
          have := hp.1 x hx'
          linarith [hox.2]
      · have hov : overlapB d fc = true := by
          rw [overlapB_iff]
          constructor <;> linarith [not_lt.mp h1, not_lt.mp h2]
        simp only [insertIntoBinAux, if_neg h1, if_neg h2, hc, if_true, List.findIdx_cons,
          hov, cond_true, List.set_cons_zero, List.getD_cons_zero]

theorem insertIntoBin_fst_closest (dbg : Bool) (l : List FrustumCommands)
    (stats : FrustumStatistics) (c : Command) (d : DistInterval)
    (hs : nearsSorted l) (hc : c.executeInClosestFrustum = true)
    (hex : ∃ fc ∈ l, overlapB d fc = true) :
    (insertIntoBin dbg l stats c d).1 =
      l.set (l.findIdx (overlapB d))
        (bucketInsert (l.getD (l.findIdx (overlapB d)) fcDefault) c) :=
  insertIntoBinAux_fst_closest dbg c d hc l 0 0 hs hex

theorem nfList_insertIntoBinAux (dbg : Bool) (c : Command) (d : DistInterval) :
    ∀ (l : List FrustumCommands) (i mask : ℕ),
      nfList (insertIntoBinAux dbg c d l i mask).1 = nfList l := by
  intro l
  induction l with
  | nil => intro i mask; rfl
  | cons fc rest ih =>
    intro i mask
    by_cases h1 : d.start > fc.far
    · simp only [insertIntoBinAux, if_pos h1, nfList, List.map_cons]
      exact congrArg _ (ih (i + 1) mask)
    · by_cases h2 : d.stop < fc.near
      · simp only [insertIntoBinAux, if_neg h1, if_pos h2]
      · by_cases h3 : c.executeInClosestFrustum
        · simp only [insertIntoBinAux, if_neg h1, if_neg h2, h3, if_true]
          rfl
        · simp only [insertIntoBinAux, if_neg h1, if_neg h2, h3, Bool.false_eq_true, if_false,
            nfList, List.map_cons]
          exact congrArg _ (ih (i + 1) (if dbg then mask ||| 2 ^ i else mask))

theorem nfList_insertIntoBin (dbg : Bool) (l : List FrustumCommands)
    (stats : FrustumStatistics) (c : Command) (d : DistInterval) :
    nfList (insertIntoBin dbg l stats c d).1 = nfList l :=
  nfList_insertIntoBinAux dbg c d l 0 0

theorem nfList_processCommand (p : BinParams) (st : BinState) (c : Command) :
    nfList (processCommand p st c).frustums = nfList st.frustums := by
  unfold processCommand
  by_cases hov : c.pass = Pass.OVERLAY
  · simp [hov]
  · simp only [hov, if_false]
    cases c.boundingVolume with
    | none =>
      show nfList (insertIntoBin p.debugShowFrustums st.frustums st.stats c
        ⟨p.cameraNear, p.cameraFar⟩).1 = nfList st.frustums
      exact nfList_insertIntoBin _ _ _ _ _
    | some bv =>
      by_cases hcul : isCulledAway p c bv
      · simp [hcul]
      · simp only [hcul, Bool.false_eq_true, if_false]
        show nfList (insertIntoBin p.debugShowFrustums st.frustums st.stats c
          (computePlaneDistances bv p.cameraPosition p.cameraDirection)).1 = nfList st.frustums
        exact nfList_insertIntoBin _ _ _ _ _

theorem nfList_foldl (p : BinParams) :
    ∀ (cs : List Command) (st : BinState),
      nfList (cs.foldl (processCommand p) st).frustums = nfList st.frustums := by
  intro cs
  induction cs with
  | nil => intro st; rfl
  | cons c cs ih =>
    intro st
    rw [List.foldl_cons, ih (processCommand p st c), nfList_processCommand]

theorem nfList_resetIndices (l : List FrustumCommands) :
    nfList (resetIndices l) = nfList l := by
  simp [nfList, resetIndices, List.map_map]

theorem nfList_cpvsPass (s : SceneState) :
    nfList (cpvsPass s).frustums = nfList s.frustumCommandsList := by
  unfold cpvsPass
  rw [nfList_foldl]
  exact nfList_resetIndices _

theorem extent_processCommand (p : BinParams) (st : BinState) (c : Command) :
    ((processCommand p st c).near, (processCommand p st c).far,
      (processCommand p st c).undefBV) =
      extentStep p (st.near, st.far, st.undefBV) c := by
  unfold processCommand extentStep
  by_cases hov : c.pass = Pass.OVERLAY
  · simp [hov]
  · simp only [hov, if_false]
    cases c.boundingVolume with
    | none => rfl
    | some bv =>
      by_cases hcul : isCulledAway p c bv
      · simp [hcul]
      · simp only [hcul, Bool.false_eq_true, if_false]

theorem extent_foldl (p : BinParams) :
    ∀ (cs : List Command) (st : BinState),
      ((cs.foldl (processCommand p) st).near, (cs.foldl (processCommand p) st).far,
        (cs.foldl (processCommand p) st).undefBV) =
        cs.foldl (extentStep p) (st.near, st.far, st.undefBV) := by
  intro cs
  induction cs with
  | nil => intro st; rfl
  | cons c cs ih =>
    intro st
    simp only [List.foldl_cons]
    rw [ih (processCommand p st c), extent_processCommand]

theorem extent_cpvsPass (s : SceneState) :
    ((cpvsPass s).near, (cpvsPass s).far, (cpvsPass s).undefBV) =
      s.commandList.foldl (extentStep (binParamsOf s)) (maxValue, minValue, false) := by
  unfold cpvsPass
  rw [extent_foldl]

theorem getD_eq_getElem {l : List FrustumCommands} {j : ℕ} (h : j < l.length) :
    l.getD j fcDefault = l[j] := by
  rw [List.getD_eq_getElem?_getD, List.getElem?_eq_getElem h]
  rfl

/-- C2: during binning, a surviving non-OVERLAY command without the
closest-frustum flag is inserted into exactly the slices whose range
overlaps its distance interval (slices in increasing-near order; the
scan skips a slice when start is beyond it and stops when stop is before
it); and against the two-slice partition [1,1000], [1000,1000000] a
command spanning [500, 1500] lands in both slices with overlap mask
binary 11. -/
theorem binning_inserts_exact_overlaps :
    (∀ (dbg : Bool) (l : List FrustumCommands) (stats : FrustumStatistics) (c : Command)
        (d : DistInterval),
        nearsSorted l → c.executeInClosestFrustum = false →
        (insertIntoBin dbg l stats c d).1 =
          l.map (fun fc => if overlapB d fc then bucketInsert fc c else fc)) ∧
    ((insertIntoBin true slices2 noStats cmdSpan ⟨500, 1500⟩).2.2 = 3 ∧
      (insertIntoBin true slices2 noStats cmdSpan ⟨500, 1500⟩).1 =
        [bucketInsert (FrustumCommands.init 1 1000) cmdSpan,
         bucketInsert (FrustumCommands.init 1000 1000000) cmdSpan]) :=
  ⟨fun dbg l stats c d => insertIntoBin_fst_map dbg l stats c d, by decide⟩

/-- Witness for C2: the general insertion characterization applied to the
two-slice partition and the spanning command. -/
theorem binning_inserts_exact_overlaps_witness :
    nearsSorted slices2 ∧ cmdSpan.executeInClosestFrustum = false ∧
      (insertIntoBin false slices2 noStats cmdSpan ⟨500, 1500⟩).1 =
        slices2.map
          (fun fc => if overlapB ⟨500, 1500⟩ fc then bucketInsert fc cmdSpan else fc) :=
  ⟨by decide, rfl,
    binning_inserts_exact_overlaps.1 false slices2 noStats cmdSpan ⟨500, 1500⟩ (by decide) rfl⟩

/-- C6: a surviving command with executeInClosestFrustum set whose
distance interval overlaps at least one slice is inserted into exactly
one slice, the lowest-index slice its interval overlaps: only that entry
of the slice list changes, that slice overlaps the interval, and no
earlier slice does. -/
theorem closest_frustum_inserts_once (dbg : Bool) (l : List FrustumCommands)
    (stats : FrustumStatistics) (c : Command) (d : DistInterval)
    (hs : nearsSorted l) (hc : c.executeInClosestFrustum = true)
    (hex : ∃ fc ∈ l, overlapB d fc = true) :
    (insertIntoBin dbg l stats c d).1 =
      l.set (l.findIdx (overlapB d))
        (bucketInsert (l.getD (l.findIdx (overlapB d)) fcDefault) c) ∧
    overlapB d (l.getD (l.findIdx (overlapB d)) fcDefault) = true ∧
    (∀ j, j < l.findIdx (overlapB d) → overlapB d (l.getD j fcDefault) = false) := by
  have hlen : l.findIdx (overlapB d) < l.length := List.findIdx_lt_length_of_exists hex
  refine ⟨insertIntoBin_fst_closest dbg l stats c d hs hc hex, ?_, ?_⟩
  · rw [getD_eq_getElem hlen]
    exact List.findIdx_getElem
  · intro j hj
    rw [getD_eq_getElem (lt_trans hj hlen)]
    have := List.not_of_lt_findIdx hj
    simpa using this

/-- Witness for C6: a closest-frustum command spanning both slices of the
two-slice partition is inserted only into slice 0. -/
theorem closest_frustum_inserts_once_witness :
    nearsSorted slices2 ∧ cmdSpanClosest.executeInClosestFrustum = true ∧
      (∃ fc ∈ slices2, overlapB ⟨500, 1500⟩ fc = true) ∧
      (insertIntoBin false slices2 noStats cmdSpanClosest ⟨500, 1500⟩).1 =
        slices2.set (slices2.findIdx (overlapB ⟨500, 1500⟩))
          (bucketInsert (slices2.getD (slices2.findIdx (overlapB ⟨500, 1500⟩)) fcDefault)
            cmdSpanClosest) :=
  ⟨by decide, rfl, ⟨FrustumCommands.init 1 1000, by decide⟩,
    (closest_frustum_inserts_once false slices2 noStats cmdSpanClosest ⟨500, 1500⟩ (by decide)
        rfl ⟨FrustumCommands.init 1 1000, by decide⟩).1⟩

/-- C3: a command with a bounding volume and cull set is dropped for the
frame when the culling volume classifies the volume fully outside or a
present occluder reports it not visible: the binning state is unchanged,
so the command lands in no slice bucket and leaves the accumulated
near/far extent alone; with cull unset the command is processed exactly
as if there were no culling volume and no occluder at all. -/
theorem culling_drops_command :
    (∀ (p : BinParams) (st : BinState) (c : Command) (bv : BoundingSphere),
        c.pass ≠ Pass.OVERLAY → c.boundingVolume = some bv → c.cull = true →
        (computeVisibility p.planes5 bv = Intersect.OUTSIDE ∨
          ∃ occ, p.occluder = some occ ∧ occ bv = false) →
        processCommand p st c = st) ∧
    (∀ (p : BinParams) (st : BinState) (c : Command) (bv : BoundingSphere),
        c.boundingVolume = some bv → c.cull = false →
        processCommand p st c =
          processCommand { p with planes5 := [], occluder := none } st c) := by
  constructor
  · intro p st c bv hpass hbv hcull hrej
    have hcul : isCulledAway p c bv = true := by
      unfold isCulledAway
      rw [hcull]
      rcases hrej with h | ⟨occ, hocc, hvis⟩
      · simp [h]
      · simp [hocc, hvis]
    unfold processCommand
    rw [if_neg hpass, hbv]
    simp [hcul]
  · intro p st c bv hbv hcull
    have h1 : isCulledAway p c bv = false := by simp [isCulledAway, hcull]
    have h2 : isCulledAway { p with planes5 := [], occluder := none } c bv = false := by
      simp [isCulledAway, hcull]
    unfold processCommand
    by_cases hpass : c.pass = Pass.OVERLAY
    · simp [hpass]
    · rw [if_neg hpass, if_neg hpass, hbv]
      simp only [h1, h2, Bool.false_eq_true, if_false]

/-- Witness for C3: the culled command against the excluding plane leaves
the binning state untouched, and with cull unset it is binned like in an
empty culling volume. -/
theorem culling_drops_command_witness :
    cmdCull.pass ≠ Pass.OVERLAY ∧ cmdCull.boundingVolume = some bvFar ∧
      cmdCull.cull = true ∧
      computeVisibility pC3.planes5 bvFar = Intersect.OUTSIDE ∧
      processCommand pC3 stC3 cmdCull = stC3 ∧
      ({ cmdCull with cull := false } : Command).cull = false ∧
      processCommand pC3 stC3 { cmdCull with cull := false } =
        processCommand { pC3 with planes5 := [], occluder := none } stC3
          { cmdCull with cull := false } :=
  ⟨by decide, rfl, rfl, by decide,
    culling_drops_command.1 pC3 stC3 cmdCull bvFar (by decide) rfl rfl (Or.inl (by decide)),
    rfl,
    culling_drops_command.2 pC3 stC3 { cmdCull with cull := false } bvFar rfl rfl⟩

/-- C4: with an empty Command Buffer the repartition is not skipped.  The
discovered near is clamped from the MAX_VALUE sentinel to the camera far
before the sentinel test, so the guard passes, numFrustums evaluates to
zero, and updateFrustums truncates the two previously computed slices to
an empty list: the previous partition does not survive the empty
frame. -/
theorem empty_frame_truncates_partition :
    sceneC4.commandList = [] ∧
    sceneC4.frustumCommandsList.length = 2 ∧
    clampedNF sceneC4 = (1000000, 1000000) ∧
    repartitionNeeded sceneC4 ∧
    (createPotentiallyVisibleSet 2 sceneC4).frustumCommandsList.length = 0 := by
  refine ⟨rfl, rfl, by decide, by decide, by decide⟩

/-- Counterexample for C5: the command cmdC5 spans distances
[2, 500000], strictly inside the active partition range [1, 1000000],
and the discovered extent is the clamped (2, 500000); but the recomputed
slice count 2 matches the active count and the extent does not escape
the partition, so the loop keeps the old partition: the final near/far
are (1, 1000) and (1000, 1000000), not the clamped extent. -/
theorem repartition_keeps_old_partition_counterexample :
    (cpvsPass sceneC5).near = 2 ∧ (cpvsPass sceneC5).far = 500000 ∧
    clampedNF sceneC5 = (2, 500000) ∧
    sceneC5.cameraNear < 2 ∧ (500000 : ℚ) < sceneC5.cameraFar ∧
    newNumFrustums sceneC5 = sceneC5.frustumCommandsList.length ∧
    ¬ repartitionNeeded sceneC5 ∧
    nfList (createPotentiallyVisibleSet 2 sceneC5).frustumCommandsList =
      [(1, 1000), (1000, 1000000)] ∧
    sliceNear (createPotentiallyVisibleSet 2 sceneC5).frustumCommandsList 0 ≠ 2 := by
  refine ⟨by decide, by decide, by decide, by decide, by decide, by decide, by decide,
    by decide, by decide⟩

/-- Counterexample for C7: the buffer of sceneC7 contains a non-clear
command without a bounding volume (cmdC7b), yet because a clear command
without a bounding volume follows it, the undefBV flag is overwritten
back to false and the discovered extent (10, 50) is used instead of the
camera near/far (1, 1000000). -/
theorem unbounded_fallback_overwritten_counterexample :
    (sceneC7.commandList.any (fun c =>
      decide (c.pass ≠ Pass.OVERLAY) && decide (c.boundingVolume = none) && !c.isClear))
      = true ∧
    (cpvsPass sceneC7).undefBV = false ∧
    clampedNF sceneC7 = (10, 50) ∧
    clampedNF sceneC7 ≠ (sceneC7.cameraNear, sceneC7.cameraFar) ∧
    nfList (createPotentiallyVisibleSet 2 sceneC7).frustumCommandsList = [(10, 50)] := by
  refine ⟨by decide, by decide, by decide, by decide, by decide⟩

theorem cpvsPass_extent_eq (s s' : SceneState)
    (hcmd : s'.commandList = s.commandList)
    (hbp : binParamsOf s' = binParamsOf s) :
    ((cpvsPass s').near, (cpvsPass s').far, (cpvsPass s').undefBV) =
      ((cpvsPass s).near, (cpvsPass s).far, (cpvsPass s).undefBV) := by
  rw [extent_cpvsPass, extent_cpvsPass, hcmd, hbp]

theorem clampedNF_repartitioned (s : SceneState) :
    clampedNF (repartitionedState s) = clampedNF s := by
  have h := cpvsPass_extent_eq (repartitionedState s) s rfl rfl
  have h1 : (cpvsPass (repartitionedState s)).near = (cpvsPass s).near :=
    (congrArg (fun t => t.1) h).symm
  have h2 : (cpvsPass (repartitionedState s)).far = (cpvsPass s).far :=
    (congrArg (fun t => t.2.1) h).symm
  have h3 : (cpvsPass (repartitionedState s)).undefBV = (cpvsPass s).undefBV :=
    (congrArg (fun t => t.2.2) h).symm
  show clampNearFar _ _ _ _ _ = clampNearFar _ _ _ _ _
  rw [h1, h2, h3]
  rfl

theorem newNumFrustums_repartitioned (s : SceneState) :
    newNumFrustums (repartitionedState s) = newNumFrustums s := by
  show leastPow _ _ = leastPow _ _
  rw [clampedNF_repartitioned]
  rfl

theorem clampedNF_bounds (s : SceneState) (hn : 0 < s.cameraNear)
    (hnf : s.cameraNear ≤ s.cameraFar) :
    0 < (clampedNF s).1 ∧ (clampedNF s).1 ≤ (clampedNF s).2 := by
  unfold clampedNF clampNearFar
  by_cases h : (cpvsPass s).undefBV
  · simp only [h, if_true]
    exact ⟨hn, hnf⟩
  · simp only [h, Bool.false_eq_true, if_false]
    constructor
    · have : s.cameraNear ≤ min (max (cpvsPass s).near s.cameraNear) s.cameraFar :=
        le_min (le_max_right _ _) hnf
      linarith
    · exact le_max_right _ _

theorem length_eq_of_nfList {l l' : List FrustumCommands} (h : nfList l = nfList l') :
    l.length = l'.length := by
  have := congrArg List.length h
  simpa [nfList] using this

theorem nfList_getD (l : List FrustumCommands) (m : ℕ) :
    (nfList l).getD m (fcDefault.near, fcDefault.far) = (sliceNear l m, sliceFar l m) := by
  induction l generalizing m with
  | nil => cases m <;> rfl
  | cons fc rest ih =>
    cases m with
    | zero => rfl
    | succ m =>
      show (nfList rest).getD m _ = _
      rw [ih m]
      rfl

theorem sliceNear_eq_of_nfList {l l' : List FrustumCommands} (h : nfList l = nfList l')
    (m : ℕ) : sliceNear l m = sliceNear l' m := by
  have h1 := nfList_getD l m
  rw [h, nfList_getD] at h1
  exact (congrArg Prod.fst h1).symm

theorem sliceFar_eq_of_nfList {l l' : List FrustumCommands} (h : nfList l = nfList l')
    (m : ℕ) : sliceFar l m = sliceFar l' m := by
  have h1 := nfList_getD l m
  rw [h, nfList_getD] at h1
  exact (congrArg Prod.snd h1).symm

theorem repartitioned_slices_nf (s : SceneState)
    (hr : 1 < s.farToNear) (hn : 0 < s.cameraNear) (hnf : s.cameraNear ≤ s.cameraFar)
    (hk : 0 < newNumFrustums s) :
    sliceNear (repartitionedState s).frustumCommandsList 0 = (clampedNF s).1 ∧
    sliceFar (repartitionedState s).frustumCommandsList (newNumFrustums s - 1) =
      (clampedNF s).2 := by
  obtain ⟨hn1, hle⟩ := clampedNF_bounds s hn hnf
  have hfle : (clampedNF s).2 ≤ s.farToNear ^ newNumFrustums s * (clampedNF s).1 := by
    have h1 : (clampedNF s).2 / (clampedNF s).1 ≤ s.farToNear ^ newNumFrustums s :=
      leastPow_le hr
    rwa [div_le_iff hn1] at h1
  constructor
  · show sliceNear (updateFrustums _ _ _ _ _) 0 = _
    rw [sliceNear_updateFrustums _ _ _ _ _ hk]
    simp
  · show sliceFar (updateFrustums _ _ _ _ _) (newNumFrustums s - 1) = _
    rw [sliceFar_updateFrustums _ _ _ _ _ (by omega),
      curNear_eq_pow hn1 hr.le]
    have h1 : s.farToNear * (s.farToNear ^ (newNumFrustums s - 1) * (clampedNF s).1) =
        s.farToNear ^ newNumFrustums s * (clampedNF s).1 := by
      rw [← mul_assoc, ← pow_succ']
      congr 2
      omega
    rw [h1]
    exact min_eq_left hfle

theorem not_repartitionNeeded_after (s : SceneState)
    (hr : 1 < s.farToNear) (hn : 0 < s.cameraNear) (hnf : s.cameraNear ≤ s.cameraFar) :
    ¬ repartitionNeeded (repartitionedState s) := by
  intro hcon
  have hlen2 : (repartitionedState s).frustumCommandsList.length = newNumFrustums s :=
    updateFrustums_length _ _ _ _ _
  have hnf2 : nfList (cpvsPass (repartitionedState s)).frustums =
      nfList (repartitionedState s).frustumCommandsList := nfList_cpvsPass _
  obtain ⟨hsent, hdisj⟩ := hcon
  rcases hdisj with hcount | ⟨hne, hesc⟩
  · rw [newNumFrustums_repartitioned, hlen2] at hcount
    exact hcount rfl
  · have hk : 0 < newNumFrustums s := by
      have := length_eq_of_nfList hnf2
      omega
    obtain ⟨hfirst, hlast⟩ := repartitioned_slices_nf s hr hn hnf hk
    rcases hesc with hlow | hhigh
    · rw [clampedNF_repartitioned,
        sliceNear_eq_of_nfList hnf2 0, hfirst] at hlow
      exact lt_irrefl _ hlow
    · rw [clampedNF_repartitioned, sliceFar_eq_of_nfList hnf2, hlen2, hlast] at hhigh
      exact lt_irrefl _ hhigh

/-- C5 (amended): the adaptive repartition loop reaches its fixed point
after at most one repartition: any fuel beyond two changes nothing.
When the pass triggers a repartition, the final partition has the
recomputed slice count with first near and last far equal to the clamped
discovered extent; when it does not (the count matches and the extent
stays inside the active partition), the previous partition near/far
survive unchanged. -/
theorem repartition_loop_converges (s : SceneState) (fuel : ℕ)
    (hr : 1 < s.farToNear) (hn : 0 < s.cameraNear) (hnf : s.cameraNear ≤ s.cameraFar) :
    createPotentiallyVisibleSet (fuel + 2) s = createPotentiallyVisibleSet 2 s ∧
    (repartitionNeeded s →
      (createPotentiallyVisibleSet 2 s).frustumCommandsList.length = newNumFrustums s ∧
      (0 < newNumFrustums s →
        sliceNear (createPotentiallyVisibleSet 2 s).frustumCommandsList 0 =
          (clampedNF s).1 ∧
        sliceFar (createPotentiallyVisibleSet 2 s).frustumCommandsList
          (newNumFrustums s - 1) = (clampedNF s).2)) ∧
    (¬ repartitionNeeded s →
      nfList (createPotentiallyVisibleSet 2 s).frustumCommandsList =
        nfList s.frustumCommandsList) := by
  have hafter := not_repartitionNeeded_after s hr hn hnf
  by_cases h : repartitionNeeded s
  · have hrun : createPotentiallyVisibleSet 2 s = passState (repartitionedState s) := by
      show createPotentiallyVisibleSet (1 + 1) s = _
      simp only [createPotentiallyVisibleSet, if_pos h, if_neg hafter]
    have hnf2 : nfList (cpvsPass (repartitionedState s)).frustums =
        nfList (repartitionedState s).frustumCommandsList := nfList_cpvsPass _
    have hlen2 : (repartitionedState s).frustumCommandsList.length = newNumFrustums s :=
      updateFrustums_length _ _ _ _ _
    refine ⟨?_, ?_, fun hcon => absurd h hcon⟩
    · show createPotentiallyVisibleSet (fuel + 1 + 1) s = _
      rw [hrun]
      simp only [createPotentiallyVisibleSet, if_pos h, if_neg hafter]
    · intro _
      rw [hrun]
      constructor
      · show (cpvsPass (repartitionedState s)).frustums.length = _
        rw [length_eq_of_nfList hnf2, hlen2]
      · intro hk
        obtain ⟨hfirst, hlast⟩ := repartitioned_slices_nf s hr hn hnf hk
        constructor
        · show sliceNear (cpvsPass (repartitionedState s)).frustums 0 = _
          rw [sliceNear_eq_of_nfList hnf2 0, hfirst]
        · show sliceFar (cpvsPass (repartitionedState s)).frustums _ = _
          rw [sliceFar_eq_of_nfList hnf2, hlast]
  · have hrun : createPotentiallyVisibleSet 2 s = passState s := by
      show createPotentiallyVisibleSet (1 + 1) s = _
      simp only [createPotentiallyVisibleSet, if_neg h]
    refine ⟨?_, fun hcon => absurd hcon h, fun _ => ?_⟩
    · show createPotentiallyVisibleSet (fuel + 1 + 1) s = _
      rw [hrun]
      simp only [createPotentiallyVisibleSet, if_neg h]
    · rw [hrun]
      exact nfList_cpvsPass s

/-- Witness for C5 (amended) at sceneC7, whose pass discovers extent
(10, 50) and triggers a repartition from two slices to one. -/
theorem repartition_loop_converges_witness :
    (1 : ℚ) < sceneC7.farToNear ∧ (0 : ℚ) < sceneC7.cameraNear ∧
      sceneC7.cameraNear ≤ sceneC7.cameraFar ∧
      (createPotentiallyVisibleSet (0 + 2) sceneC7 = createPotentiallyVisibleSet 2 sceneC7 ∧
        (repartitionNeeded sceneC7 →
          (createPotentiallyVisibleSet 2 sceneC7).frustumCommandsList.length =
            newNumFrustums sceneC7 ∧
          (0 < newNumFrustums sceneC7 →
            sliceNear (createPotentiallyVisibleSet 2 sceneC7).frustumCommandsList 0 =
              (clampedNF sceneC7).1 ∧
            sliceFar (createPotentiallyVisibleSet 2 sceneC7).frustumCommandsList
              (newNumFrustums sceneC7 - 1) = (clampedNF sceneC7).2)) ∧
        (¬ repartitionNeeded sceneC7 →
          nfList (createPotentiallyVisibleSet 2 sceneC7).frustumCommandsList =
            nfList sceneC7.frustumCommandsList)) :=
  ⟨by decide, by decide, by decide,
    repartition_loop_converges sceneC7 0 (by decide) (by decide) (by decide)⟩

theorem extentStep_undefBV (p : BinParams) (e : ℚ × ℚ × Bool) (c : Command) :
    (extentStep p e c).2.2 =
      (if c.pass = Pass.OVERLAY then e.2.2
       else
         match c.boundingVolume with
         | some _ => e.2.2
         | none => !c.isClear) := by
  unfold extentStep
  by_cases h : c.pass = Pass.OVERLAY
  · simp [h]
  · simp only [h, if_false]
    cases c.boundingVolume with
    | none => rfl
    | some bv =>
      by_cases hc : isCulledAway p c bv <;> simp [hc]

theorem undefBV_foldl (p : BinParams) :
    ∀ (cs : List Command) (e : ℚ × ℚ × Bool),
      (cs.foldl (extentStep p) e).2.2 =
        cs.foldl
          (fun b c =>
            if c.pass = Pass.OVERLAY then b
            else
              match c.boundingVolume with
              | some _ => b
              | none => !c.isClear) e.2.2 := by
  intro cs
  induction cs with
  | nil => intro e; rfl
  | cons c cs ih =>
    intro e
    simp only [List.foldl_cons]
    rw [ih (extentStep p e c), extentStep_undefBV]

theorem cpvsPass_undefBV (s : SceneState) :
    (cpvsPass s).undefBV = lastUnboundedNonClear s.commandList := by
  have h3 : (cpvsPass s).undefBV =
      (s.commandList.foldl (extentStep (binParamsOf s)) (maxValue, minValue, false)).2.2 :=
    congrArg (fun t => t.2.2) (extent_cpvsPass s)
  rw [h3, undefBV_foldl]
  rfl

/-- C7 (amended): a non-OVERLAY command without a bounding volume is
given the full camera near/far interval and is inserted into every slice
(whenever the slices, as always in practice, lie inside the camera
range); the undefBV flag after the pass equals whether the LAST such
command in buffer order was not a clear command (each unbounded command
overwrites the flag), and when that flag is set the discovered extent is
discarded for the camera near/far.  This degrades the partition, it does
not fail the frame. -/
theorem unbounded_commands_amended :
    (∀ (p : BinParams) (st : BinState) (c : Command),
        c.pass ≠ Pass.OVERLAY → c.boundingVolume = none →
        c.executeInClosestFrustum = false →
        nearsSorted st.frustums →
        (∀ fc ∈ st.frustums, p.cameraNear ≤ fc.far ∧ fc.near ≤ p.cameraFar) →
        (processCommand p st c).frustums = st.frustums.map (fun fc => bucketInsert fc c) ∧
        (processCommand p st c).undefBV = !c.isClear) ∧
    (∀ s : SceneState, (cpvsPass s).undefBV = lastUnboundedNonClear s.commandList) ∧
    (∀ s : SceneState, (cpvsPass s).undefBV = true →
        clampedNF s = (s.cameraNear, s.cameraFar)) := by
  refine ⟨?_, cpvsPass_undefBV, ?_⟩
  · intro p st c hpass hbv hicf hs hcover
    unfold processCommand
    rw [if_neg hpass, hbv]
    constructor
    · show (insertIntoBin p.debugShowFrustums st.frustums st.stats c
        ⟨p.cameraNear, p.cameraFar⟩).1 = _
      rw [insertIntoBin_fst_map _ _ _ _ _ hs hicf]
      apply List.map_congr_left
      intro fc hfc
      have hov : overlapB ⟨p.cameraNear, p.cameraFar⟩ fc = true := by
        rw [overlapB_iff]
        exact hcover fc hfc
      simp [hov]
    · rfl
  · intro s h
    unfold clampedNF clampNearFar
    simp [h]

/-- Witness for C7 (amended): the unbounded non-clear command cmdC7b is
inserted into both slices of the two-slice partition, and a one-command
scene with cmdC7b ends the pass with the undefBV flag set and the camera
near/far as the clamped extent. -/
theorem unbounded_commands_amended_witness :
    cmdC7b.pass ≠ Pass.OVERLAY ∧ cmdC7b.boundingVolume = none ∧
      cmdC7b.executeInClosestFrustum = false ∧ nearsSorted stC3.frustums ∧
      (∀ fc ∈ stC3.frustums, pC3.cameraNear ≤ fc.far ∧ fc.near ≤ pC3.cameraFar) ∧
      (processCommand pC3 stC3 cmdC7b).frustums =
        stC3.frustums.map (fun fc => bucketInsert fc cmdC7b) ∧
      (cpvsPass { sceneC4 with commandList := [cmdC7b] }).undefBV = true ∧
      clampedNF { sceneC4 with commandList := [cmdC7b] } =
        (({ sceneC4 with commandList := [cmdC7b] } : SceneState).cameraNear,
          ({ sceneC4 with commandList := [cmdC7b] } : SceneState).cameraFar) :=
  ⟨by decide, rfl, rfl, by decide, by decide,
    (unbounded_commands_amended.1 pC3 stC3 cmdC7b (by decide) rfl rfl (by decide)
        (by decide)).1,
    by decide,
    unbounded_commands_amended.2.2 { sceneC4 with commandList := [cmdC7b] } (by decide)⟩

theorem map_range_sub_reverse {α : Type} (n : ℕ) (f : ℕ → α) :
    (List.range n).map (fun i => f (n - i - 1)) = ((List.range n).map f).reverse := by
  induction n generalizing f with
  | zero => rfl
  | succ n ih =>
    have hlhs : (List.range (n + 1)).map (fun i => f (n + 1 - i - 1)) =
        f n :: (List.range n).map (fun i => f (n - i - 1)) := by
      rw [List.range_succ_eq_map, List.map_cons, List.map_map]
      congr 1
      · apply List.map_congr_left
        intro a _
        show f (n + 1 - (a + 1) - 1) = f (n - a - 1)
        congr 1
        omega
    rw [hlhs, ih, List.range_succ, List.map_append, List.reverse_append]
    rfl

theorem executeCommandsOrder_eq_reverse (l : List FrustumCommands) :
    executeCommandsOrder l = (sliceBlocks l).reverse.flatten := by
  show (List.range l.length).flatMap
      (fun i => (executeSlice (l.getD (l.length - i - 1) fcDefault)).map
        (fun c => (l.length - i - 1, c))) = _
  rw [List.flatMap_def]
  unfold sliceBlocks
  rw [← map_range_sub_reverse l.length
    (fun i => (executeSlice (l.getD i fcDefault)).map (fun c => (i, c)))]

theorem executeSlice_eq_flatMap (fc : FrustumCommands) :
    executeSlice fc =
      (List.range Pass.TRANSLUCENT).flatMap
        (fun pass => (fc.commands.getD pass []).take (fc.indices.getD pass 0)) := by
  show _ ++ _ = _
  rfl

theorem executeCommandsOrder_no_stale (l : List FrustumCommands) (i : ℕ) (c : Command)
    (h : (i, c) ∈ executeCommandsOrder l) :
    i < l.length ∧
    ∃ p j, p < Pass.TRANSLUCENT ∧ j < (l.getD i fcDefault).indices.getD p 0 ∧
      ((l.getD i fcDefault).commands.getD p [])[j]? = some c := by
  unfold executeCommandsOrder at h
  rw [List.mem_flatMap] at h
  obtain ⟨a, ha, hmem⟩ := h
  rw [List.mem_range] at ha
  rw [List.mem_map] at hmem
  obtain ⟨c', hc', heq⟩ := hmem
  injection heq with hi hcc
  subst hi
  subst hcc
  refine ⟨by omega, ?_⟩
  rw [executeSlice_eq_flatMap, List.mem_flatMap] at hc'
  obtain ⟨p, hp, hcp⟩ := hc'
  rw [List.mem_range] at hp
  rw [List.mem_iff_getElem?] at hcp
  obtain ⟨j, hj⟩ := hcp
  have hjlt : j < (((l.getD (l.length - a - 1) fcDefault).commands.getD p []).take
      ((l.getD (l.length - a - 1) fcDefault).indices.getD p 0)).length := by
    by_contra hge
    push_neg at hge
    rw [List.getElem?_eq_none hge] at hj
    cases hj
  rw [List.length_take] at hjlt
  refine ⟨p, j, hp, by omega, ?_⟩
  rw [List.getElem?_take_of_lt (by omega)] at hj
  exact hj

/-- C8: the executor walks the slices from the farthest (highest index)
to the nearest (index 0) - its execution sequence is the reverse of the
near-to-far slice blocks; within a slice it runs the GLOBE bucket and
then every pass before TRANSLUCENT, each bucket cut off at the count
indices[pass]; consequently every executed entry comes from a bucket
position strictly below the recorded count, so stale entries beyond the
count are never executed. -/
theorem executor_back_to_front_no_stale :
    (∀ l : List FrustumCommands,
      executeCommandsOrder l = (sliceBlocks l).reverse.flatten) ∧
    (∀ fc : FrustumCommands,
      executeSlice fc =
        (List.range Pass.TRANSLUCENT).flatMap
          (fun pass => (fc.commands.getD pass []).take (fc.indices.getD pass 0))) ∧
    (∀ (l : List FrustumCommands) (i : ℕ) (c : Command),
      (i, c) ∈ executeCommandsOrder l →
      i < l.length ∧
      ∃ p j, p < Pass.TRANSLUCENT ∧ j < (l.getD i fcDefault).indices.getD p 0 ∧
        ((l.getD i fcDefault).commands.getD p [])[j]? = some c) :=
  ⟨executeCommandsOrder_eq_reverse, executeSlice_eq_flatMap,
    executeCommandsOrder_no_stale⟩

/-- Witness for C8: over a two-slice list whose first slice holds one
live GLOBE entry and one stale entry, the executor visits slice 1 before
slice 0 and executes only the live entry. -/
theorem executor_back_to_front_no_stale_witness :
    executeCommandsOrder execList = (sliceBlocks execList).reverse.flatten ∧
      executeCommandsOrder execList = [(0, cmdSpan)] ∧
      ((0, cmdSpan) ∈ executeCommandsOrder execList →
        0 < execList.length ∧
        ∃ p j, p < Pass.TRANSLUCENT ∧ j < (execList.getD 0 fcDefault).indices.getD p 0 ∧
          ((execList.getD 0 fcDefault).commands.getD p [])[j]? = some cmdSpan) :=
  ⟨executor_back_to_front_no_stale.1 execList, by decide,
    executor_back_to_front_no_stale.2.2 execList 0 cmdSpan⟩

theorem updateFrustums_getElem? (near far r : ℚ) (k : ℕ) (l : List FrustumCommands) {m : ℕ}
    (hm : m < k) :
    (updateFrustums near far r k l)[m]? =
      some
        (match l[m]? with
         | some fc =>
           { fc with
             near := max near (r ^ m * near)
             far := min far (r * max near (r ^ m * near)) }
         | none =>
           FrustumCommands.init (max near (r ^ m * near))
             (min far (r * max near (r ^ m * near)))) := by
  have h1 : (List.range k)[m]? = some m := List.getElem?_range hm
  simp [updateFrustums, List.getElem?_map, h1]

/-- C9: updateFrustums with identical arguments is idempotent, the slice
count equals the requested count, and every slice index that already
existed keeps its bucket storage (indices and commands) with only the
near/far fields rewritten - the in-place reuse of the source. -/
theorem updateFrustums_idempotent_reuse (near far r : ℚ) (k : ℕ)
    (l : List FrustumCommands) :
    updateFrustums near far r k (updateFrustums near far r k l) =
      updateFrustums near far r k l ∧
    (updateFrustums near far r k l).length = k ∧
    (∀ m, m < k → m < l.length →
      ((updateFrustums near far r k l).getD m fcDefault).indices =
        (l.getD m fcDefault).indices ∧
      ((updateFrustums near far r k l).getD m fcDefault).commands =
        (l.getD m fcDefault).commands) := by
  refine ⟨?_, updateFrustums_length near far r k l, ?_⟩
  · apply List.ext_getElem?
    intro m
    by_cases hm : m < k
    · rw [updateFrustums_getElem? near far r k _ hm,
        updateFrustums_getElem? near far r k l hm]
      cases l[m]? <;> rfl
    · have h1 : ∀ l' : List FrustumCommands, (updateFrustums near far r k l')[m]? = none := by
        intro l'
        rw [List.getElem?_eq_none]
        rw [updateFrustums_length]
        omega
      rw [h1, h1]
  · intro m hmk hml
    have h2 : l[m]? = some (l.getD m fcDefault) := by
      rw [List.getD_eq_getElem?_getD, List.getElem?_eq_getElem hml]
      rfl
    rw [updateFrustums_getD near far r k l hmk, h2]
    exact ⟨rfl, rfl⟩

/-- Witness for C9 at the two-slice partition. -/
theorem updateFrustums_idempotent_reuse_witness :
    updateFrustums 1 1000000 1000 2 (updateFrustums 1 1000000 1000 2 slices2) =
      updateFrustums 1 1000000 1000 2 slices2 ∧
    (updateFrustums 1 1000000 1000 2 slices2).length = 2 ∧
    ((updateFrustums 1 1000000 1000 2 slices2).getD 0 fcDefault).indices =
      (slices2.getD 0 fcDefault).indices :=
  ⟨(updateFrustums_idempotent_reuse 1 1000000 1000 2 slices2).1,
    (updateFrustums_idempotent_reuse 1 1000000 1000 2 slices2).2.1,
    ((updateFrustums_idempotent_reuse 1 1000000 1000 2 slices2).2.2 0 (by omega)
        (by decide)).1⟩

/-- C10: the binning visibility test uses only the first five planes of
the frame culling volume - the far plane is dropped.  A culled command
whose bounding sphere is fully outside the sixth (far) plane but not
outside any of the five kept planes would be OUTSIDE for the full
volume, yet it is not rejected and is still binned into every slice
overlapping its distance interval. -/
theorem far_plane_excluded_from_culling (s : SceneState) (st : BinState) (c : Command)
    (bv : BoundingSphere) (planes : List Plane) (farPlane : Plane)
    (hcv : s.cullingVolume = planes ++ [farPlane]) (h5 : planes.length = 5)
    (hpass : c.pass ≠ Pass.OVERLAY) (hbv : c.boundingVolume = some bv)
    (hcull : c.cull = true)
    (hin : computeVisibility planes bv ≠ Intersect.OUTSIDE)
    (hout : intersectPlane bv farPlane = Intersect.OUTSIDE)
    (hocc : (binParamsOf s).occluder = none)
    (hs : nearsSorted st.frustums) (hicf : c.executeInClosestFrustum = false) :
    computeVisibility s.cullingVolume bv = Intersect.OUTSIDE ∧
    isCulledAway (binParamsOf s) c bv = false ∧
    (processCommand (binParamsOf s) st c).frustums =
      st.frustums.map (fun fc =>
        if overlapB (computePlaneDistances bv s.cameraPosition s.cameraDirection) fc then
          bucketInsert fc c
        else fc) := by
  have htake : (binParamsOf s).planes5 = planes := by
    show s.cullingVolume.take 5 = planes
    rw [hcv, ← h5, List.take_append_of_le_length (le_refl _), List.take_length]
  have hfull : computeVisibility s.cullingVolume bv = Intersect.OUTSIDE := by
    rw [hcv]
    unfold computeVisibility
    rw [if_pos]
    rw [List.any_append]
    simp [hout]
  have hnotout : decide (computeVisibility (binParamsOf s).planes5 bv = Intersect.OUTSIDE)
      = false := by
    rw [htake]
    simpa using hin
  have hcul : isCulledAway (binParamsOf s) c bv = false := by
    unfold isCulledAway
    rw [hnotout, hocc]
    simp
  refine ⟨hfull, hcul, ?_⟩
  unfold processCommand
  rw [if_neg hpass, hbv]
  simp only [hcul, Bool.false_eq_true, if_false]
  show (insertIntoBin (binParamsOf s).debugShowFrustums st.frustums st.stats c
    (computePlaneDistances bv (binParamsOf s).cameraPosition
      (binParamsOf s).cameraDirection)).1 = _
  rw [insertIntoBin_fst_map _ _ _ _ _ hs hicf]
  rfl

/-- Witness for C10 at sceneC10: five satisfied planes plus an excluding
far plane, the command is kept and binned into slice 1. -/
theorem far_plane_excluded_from_culling_witness :
    sceneC10.cullingVolume = [planeIn, planeIn, planeIn, planeIn, planeIn] ++ [planeExcl] ∧
      ([planeIn, planeIn, planeIn, planeIn, planeIn] : List Plane).length = 5 ∧
      computeVisibility [planeIn, planeIn, planeIn, planeIn, planeIn] bvFar ≠
        Intersect.OUTSIDE ∧
      intersectPlane bvFar planeExcl = Intersect.OUTSIDE ∧
      computeVisibility sceneC10.cullingVolume bvFar = Intersect.OUTSIDE ∧
      isCulledAway (binParamsOf sceneC10) cmdCull bvFar = false ∧
      (processCommand (binParamsOf sceneC10) stC3 cmdCull).frustums =
        stC3.frustums.map (fun fc =>
          if overlapB (computePlaneDistances bvFar sceneC10.cameraPosition
              sceneC10.cameraDirection) fc then
            bucketInsert fc cmdCull
          else fc) :=
  ⟨rfl, rfl, by decide, by decide,
    (far_plane_excluded_from_culling sceneC10 stC3 cmdCull bvFar
        [planeIn, planeIn, planeIn, planeIn, planeIn] planeExcl rfl rfl (by decide) rfl rfl
        (by decide) (by decide) rfl (by decide) rfl).1,
    (far_plane_excluded_from_culling sceneC10 stC3 cmdCull bvFar
        [planeIn, planeIn, planeIn, planeIn, planeIn] planeExcl rfl rfl (by decide) rfl rfl
        (by decide) (by decide) rfl (by decide) rfl).2.1,
    (far_plane_excluded_from_culling sceneC10 stC3 cmdCull bvFar
        [planeIn, planeIn, planeIn, planeIn, planeIn] planeExcl rfl rfl (by decide) rfl rfl
        (by decide) (by decide) rfl (by decide) rfl).2.2⟩
